import Mathlib

/-
  Verification of the CEO-toto-tycoon backend core.

  Shallow embedding of:
  - the users / referral_rewards / business_totals tables and their
    constraints (schema.sql, unnamed/part_001, unnamed/part_002),
  - the plpgsql functions purchase_business, manual_refer_by_id,
    reward_referrer, increment_referral_bonus and the
    update_business_totals_row trigger,
  - the Express endpoints /api/user, /api/user/update, /api/mine and the
    helpers applyReferralBonus and calculatePassiveIncome (unnamed/part_000).

  Stateful code is embedded as explicit state passing over GState.
  Each endpoint or SQL function returns (response, new state); a plpgsql
  exception that aborts the transaction is a distinguished error
  constructor paired with the unchanged state (full rollback).
-/

namespace CeoToto

/-- One row of the public.users table (schema.sql lines 4-15).
    The created_at timestamptz column is omitted (wall-clock only). -/
structure User where
  id : String
  username : String
  coins : Int
  businesses : List (String × Int)
  level : Int
  last_mine : Int
  referrals_count : Int
  referred_by : Option String
  subscribed : Bool
deriving DecidableEq

/-- One row of public.business_totals (schema.sql lines 46-51). -/
structure BTotal where
  name : String
  total_qty : Int
  total_invested : Int
deriving DecidableEq

/-- The durable store: users table, referral_rewards table
    (part_001 lines 16-21, keyed by (referrer_id, referred_user_id)),
    and the business_totals table. -/
structure GState where
  users : List User
  rewards : List (String × String)
  totals : List BTotal
deriving DecidableEq

/-- Values appearing in the json objects built by the SQL functions. -/
inductive JVal
  | jbool (b : Bool)
  | jint (n : Int)
  | jstr (s : String)
deriving DecidableEq

/-- A json object as built by json_build_object: ordered key/value pairs. -/
abbrev JObj := List (String × JVal)

/-- Key lookup in a json object. -/
def jlookup : JObj → String → Option JVal
  | [], _ => none
  | p :: rest, k => if p.1 = k then some p.2 else jlookup rest k

/-- Assoc lookup in a jsonb map of business quantities
    (the businesses ->> key operator). -/
def lookupB : List (String × Int) → String → Option Int
  | [], _ => none
  | p :: rest, k => if p.1 = k then some p.2 else lookupB rest k

/-- SELECT ... FROM users WHERE id = uid (primary-key lookup: the first,
    and by the primary key only, matching row). -/
def findU : List User → String → Option User
  | [], _ => none
  | u :: rest, uid => if u.id = uid then some u else findU rest uid

def findUser (db : GState) (uid : String) : Option User :=
  findU db.users uid

/-- UPDATE users SET ... WHERE id = uid: applies f to every matching row
    (the primary key makes the match unique). -/
def updUser (db : GState) (uid : String) (f : User → User) : GState :=
  { db with users := db.users.map (fun v => if v.id = uid then f v else v) }

/-- INSERT INTO users. -/
def insertUser (db : GState) (u : User) : GState :=
  { db with users := db.users ++ [u] }

/-- jsonb_set(businesses, array[k], to_jsonb(v), true): replace the value
    at key k, appending the key when missing (create_missing = true). -/
def jsonb_set (bs : List (String × Int)) (k : String) (v : Int) :
    List (String × Int) :=
  if (lookupB bs k).isSome then
    bs.map (fun p => if p.1 = k then (k, v) else p)
  else bs ++ [(k, v)]

/-- The BUSINESSES catalog of unnamed/part_000 lines 77-84. -/
structure Business where
  id : String
  name : String
  cost : Int
  income : Int
deriving DecidableEq

def BUSINESSES : List Business :=
  [⟨"DAPP", "DAPP", 1000, 1⟩,
   ⟨"TOTO_VAULT", "TOTO VAULT", 1000, 1⟩,
   ⟨"CIFCI_STABLE", "CIFCI STABLE COIN", 1000, 1⟩,
   ⟨"TYPOGRAM", "TYPOGRAM", 1000, 1⟩,
   ⟨"APPLE", "APPLE", 1000, 1⟩,
   ⟨"BITCOIN", "BITCOIN", 1000, 1⟩]

/-- calculatePassiveIncome (unnamed/part_000 lines 88-95): fold over the
    owned-businesses entries, adding income * qty for ids found in the
    catalog and skipping entries whose id is not in the catalog. -/
def calculatePassiveIncome (bs : List (String × Int)) : Int :=
  bs.foldl
    (fun total p =>
      match BUSINESSES.find? (fun x => x.id = p.1) with
      | some b => total + b.income * p.2
      | none => total)
    0

/-- Modelled from the spec words for the refinement claim about the
    passive income calculator: the per-unit income rate of a business id,
    zero for identifiers outside the catalog. -/
def perUnitIncomeRate (id : String) : Int :=
  match BUSINESSES.find? (fun x => x.id = id) with
  | some b => b.income
  | none => 0

/-- Modelled from the spec words: sum of quantity times per-unit rate over
    all entries of the owned-businesses map. -/
def income_spec (bs : List (String × Int)) : Int :=
  (bs.map (fun p => p.2 * perUnitIncomeRate p.1)).sum

/-- coalesce(sum((u.businesses ->> k)::bigint), 0) over users u with
    u.businesses ? k (trigger body, schema.sql lines 82-91). -/
def sumQty (users : List User) (k : String) : Int :=
  (users.filter (fun u => (lookupB u.businesses k).isSome)).foldl
    (fun s u => s + (lookupB u.businesses k).getD 0) 0

/-- One iteration of the trigger loop: insert (k, v, v*1000) into
    business_totals, or on conflict recompute both totals from the users
    table (schema.sql lines 79-93). -/
def upsertTotal (users : List User) (ts : List BTotal) (k : String) (v : Int) :
    List BTotal :=
  if ts.any (fun t => t.name = k) then
    ts.map (fun t =>
      if t.name = k then
        { t with total_qty := sumQty users k,
                 total_invested := sumQty users k * 1000 }
      else t)
  else ts ++ [⟨k, v, v * 1000⟩]

/-- update_business_totals_row trigger (schema.sql lines 61-97), fired
    AFTER insert/update, so db already holds the new row. -/
def update_business_totals_row (db : GState) (newRow : User) : GState :=
  { db with
    totals := newRow.businesses.foldl
      (fun ts p => upsertTotal db.users ts p.1 p.2) db.totals }

-- json payloads built by the SQL functions

def invalidQtyJson : JObj :=
  [("success", .jbool false), ("error", .jstr "invalid_qty")]

def insufficientFundsJson : JObj :=
  [("success", .jbool false), ("error", .jstr "insufficient_funds")]

def alreadyUserJson : JObj :=
  [("success", .jbool false), ("error", .jstr "already_user")]

def referSuccessJson : JObj := [("success", .jbool true)]

def purchaseOkJson (b : String) (owned : Int) : JObj :=
  [("success", .jbool true), ("business", .jstr b), ("owned", .jint owned)]

/-- purchase_business (schema.sql lines 158-202).
    cost := p_qty * 1000; reject non-positive quantity; SELECT the current
    owned quantity FOR UPDATE; UPDATE ... WHERE id = p_user_id AND
    coins >= cost (zero rows matched, including a missing user, yields
    insufficient_funds); the totals trigger fires on the updated row. -/
def purchase_business (db : GState) (p_user_id p_business : String)
    (p_qty : Int) : JObj × GState :=
  let cost := p_qty * 1000
  if p_qty ≤ 0 then (invalidQtyJson, db)
  else
    match findUser db p_user_id with
    | none => (insufficientFundsJson, db)
    | some u =>
      if cost ≤ u.coins then
        let cur_qty := (lookupB u.businesses p_business).getD 0
        let db1 := updUser db p_user_id (fun v =>
          if cost ≤ v.coins then
            { v with coins := v.coins - cost,
                     businesses := jsonb_set v.businesses p_business
                       (cur_qty + p_qty) }
          else v)
        let db2 :=
          match findUser db1 p_user_id with
          | some v1 => update_business_totals_row db1 v1
          | none => db1
        (purchaseOkJson p_business (cur_qty + p_qty), db2)
      else (insufficientFundsJson, db)

/-- Outcome of manual_refer_by_id: either its json result, or the
    transaction aborted by the no_self_referral check constraint
    (schema.sql lines 21-23) violated by the INSERT. -/
inductive MRefRes
  | checkViolation
  | mjson (j : JObj)
deriving DecidableEq

/-- manual_refer_by_id (schema.sql lines 113-153).
    A referred id that already has a row returns already_user; otherwise
    the referred user is inserted with coins 100 and referred_by set, which
    violates no_self_referral when referrer = referred (uncaught, so the
    whole transaction rolls back); the referrer row, when present, is
    credited 100 coins and one referral (UPDATE matches zero rows
    silently when the referrer is missing). -/
def manual_refer_by_id (db : GState)
    (referrer_id referred_id referred_username : String) : MRefRes × GState :=
  if (findUser db referred_id).isSome then (.mjson alreadyUserJson, db)
  else if referrer_id = referred_id then (.checkViolation, db)
  else
    let nu : User :=
      ⟨referred_id, referred_username, 100, [], 1, 0, 0, some referrer_id, true⟩
    let db1 := update_business_totals_row (insertUser db nu) nu
    let db2 := updUser db1 referrer_id (fun v =>
      { v with coins := v.coins + 100,
               referrals_count := v.referrals_count + 1 })
    (.mjson referSuccessJson, db2)

/-- One row of the table returned by reward_referrer; the columns are
    nullable because the plpgsql OUT variables start as NULL. -/
structure RewardRow where
  referrer_id : Option String
  referrals_count : Option Int
  coins : Option Int
  rewarded : Bool
deriving DecidableEq

/-- Outcome of reward_referrer: its row set, or the transaction aborted by
    an uncaught foreign_key_violation (referral_rewards references
    public.users(id) on both columns, part_001 lines 16-21, and the
    function only catches unique_violation). -/
inductive RRes
  | fkViolation
  | rows (rs : List RewardRow)
deriving DecidableEq

/-- reward_referrer (unnamed/part_001 lines 24-71).
    The INSERT into referral_rewards first hits the primary-key index
    (unique_violation, caught: already-rewarded branch), then the foreign
    keys to users on both columns (uncaught: transaction aborts).  When the
    insert succeeds the referrer row is credited and returned with
    rewarded = true; the source also carries a branch that deletes the
    fresh reward record and returns rewarded = false when the UPDATE finds
    no referrer, kept here verbatim. -/
def reward_referrer (db : GState) (p_referrer_id p_referred_user_id : String)
    (p_coin_bonus : Int) : RRes × GState :=
  if (p_referrer_id, p_referred_user_id) ∈ db.rewards then
    (.rows
      (match findUser db p_referrer_id with
       | some u => [⟨some u.id, some u.referrals_count, some u.coins, false⟩]
       | none => []),
     db)
  else if (findUser db p_referrer_id).isNone ||
          (findUser db p_referred_user_id).isNone then
    (.fkViolation, db)
  else
    let db1 : GState :=
      { db with rewards := (p_referrer_id, p_referred_user_id) :: db.rewards }
    match findUser db1 p_referrer_id with
    | some u =>
      (.rows [⟨some u.id, some (u.referrals_count + 1),
               some (u.coins + p_coin_bonus), true⟩],
       updUser db1 p_referrer_id (fun v =>
         { v with referrals_count := v.referrals_count + 1,
                  coins := v.coins + p_coin_bonus }))
    | none =>
      (.rows [⟨none, none, none, false⟩], { db1 with rewards := db.rewards })

/-- increment_referral_bonus (unnamed/part_002 lines 24-32). -/
def increment_referral_bonus (db : GState) (ref_id : String) : GState :=
  updUser db ref_id (fun v =>
    { v with referrals_count := v.referrals_count + 1,
             coins := v.coins + 100 })

inductive BonusRes
  | noReferrer
  | referrerNotFound
  | okRpc
deriving DecidableEq

/-- applyReferralBonus (unnamed/part_000 lines 123-174): a falsy referrer
    id is rejected, a missing referrer row is referrer-not-found, otherwise
    the increment_referral_bonus RPC runs.  The read-modify-write fallback
    only runs when the RPC itself fails and is not modelled (the RPC is
    taken to succeed). -/
def applyReferralBonus (db : GState) (referrerId : Option String) :
    BonusRes × GState :=
  match referrerId with
  | none => (.noReferrer, db)
  | some rid =>
    if rid = "" then (.noReferrer, db)
    else
      match findUser db rid with
      | none => (.referrerNotFound, db)
      | some _ => (.okRpc, increment_referral_bonus db rid)

/-- The API shape produced by mapRowToUser (unnamed/part_000 lines 98-112). -/
structure ApiUser where
  id : String
  username : String
  coins : Int
  businesses : List (String × Int)
  level : Int
  lastMine : Int
  referralsCount : Int
  referredBy : Option String
  subscribed : Bool
deriving DecidableEq

def mapRowToUser (u : User) : ApiUser :=
  ⟨u.id, u.username, u.coins, u.businesses, u.level, u.last_mine,
   u.referrals_count, u.referred_by, u.subscribed⟩

inductive UserRes
  | idRequired
  | ok (u : ApiUser)
deriving DecidableEq

/-- POST /api/user (unnamed/part_000 lines 181-247).
    An existing id is returned unchanged; a new user is inserted with
    coins 100 and referred_by sanitized against self-referral (a falsy or
    self referredBy becomes null), then the referral bonus is applied. -/
def api_user (db : GState) (id : String) (username : Option String)
    (referredBy : Option String) : UserRes × GState :=
  if id = "" then (.idRequired, db)
  else
    match findUser db id with
    | some existing => (.ok (mapRowToUser existing), db)
    | none =>
      let safeReferredBy : Option String :=
        match referredBy with
        | some r => if r ≠ "" ∧ r ≠ id then some r else none
        | none => none
      let uname : String :=
        match username with
        | some s => if s = "" then "user_" ++ id else s
        | none => "user_" ++ id
      let nu : User := ⟨id, uname, 100, [], 1, 0, 0, safeReferredBy, false⟩
      let db1 := update_business_totals_row (insertUser db nu) nu
      let db2 := (applyReferralBonus db1 safeReferredBy).2
      (.ok (mapRowToUser nu), db2)

inductive UpdRes
  | idRequired
  | noFields
  | okTrue
deriving DecidableEq

/-- POST /api/user/update (unnamed/part_000 lines 275-302).
    Each present field overwrites the stored one; a supabase UPDATE that
    matches zero rows still reports ok; referred_by is never part of the
    payload.  The totals trigger fires when businesses was updated. -/
def api_user_update (db : GState) (id : String) (coins : Option Int)
    (businesses : Option (List (String × Int))) (lastMine : Option Int)
    (level : Option Int) (subscribed : Option Bool) : UpdRes × GState :=
  if id = "" then (.idRequired, db)
  else if coins.isNone && businesses.isNone && lastMine.isNone &&
          level.isNone && subscribed.isNone then
    (.noFields, db)
  else
    let db1 := updUser db id (fun v =>
      { v with coins := coins.getD v.coins,
               businesses := businesses.getD v.businesses,
               last_mine := lastMine.getD v.last_mine,
               level := level.getD v.level,
               subscribed := subscribed.getD v.subscribed })
    let db2 :=
      if businesses.isSome then
        match findUser db1 id with
        | some v1 => update_business_totals_row db1 v1
        | none => db1
      else db1
    (.okTrue, db2)

inductive MineRes
  | idRequired
  | notFound
  | cooldown (retryAfterMs : Int)
  | mined (earned passive coins lastMine : Int)
deriving DecidableEq

def MINE_COOLDOWN_MS : Int := 60000

/-- POST /api/mine (unnamed/part_000 lines 309-360).  now is the Date.now()
    reading and earned the Math.floor(Math.random() * 2) + 2 draw. -/
def api_mine (db : GState) (id : String) (now earned : Int) :
    MineRes × GState :=
  if id = "" then (.idRequired, db)
  else
    match findUser db id with
    | none => (.notFound, db)
    | some u =>
      let diff := now - u.last_mine
      if diff < MINE_COOLDOWN_MS then (.cooldown (MINE_COOLDOWN_MS - diff), db)
      else
        let passive := calculatePassiveIncome u.businesses
        let newCoins := u.coins + earned + passive
        (.mined earned passive newCoins now,
         updUser db id (fun v => { v with coins := newCoins, last_mine := now }))

/-- The operations the system exposes on the store. -/
inductive Op
  | opUser (id : String) (username : Option String) (referredBy : Option String)
  | opUpd (id : String) (coins : Option Int)
      (businesses : Option (List (String × Int))) (lastMine : Option Int)
      (level : Option Int) (subscribed : Option Bool)
  | opMine (id : String) (now earned : Int)
  | opPurchase (userId business : String) (qty : Int)
  | opReward (referrer referred : String)
  | opManualRefer (referrer referred username : String)
deriving DecidableEq

/-- State effect of one operation (the referral bonus of opReward is the
    default constant 100 of the source). -/
def applyOp (db : GState) (op : Op) : GState :=
  match op with
  | .opUser id un rb => (api_user db id un rb).2
  | .opUpd id c b lm lv sb => (api_user_update db id c b lm lv sb).2
  | .opMine id now e => (api_mine db id now e).2
  | .opPurchase uid b q => (purchase_business db uid b q).2
  | .opReward a b => (reward_referrer db a b 100).2
  | .opManualRefer a b n => (manual_refer_by_id db a b n).2

/-- The earned draw of /api/mine can only be 2 or 3. -/
def Op.valid : Op → Bool
  | .opMine _ _ e => e = 2 || e = 3
  | _ => true

/-- Whether the operation is the unvalidated /api/user/update endpoint. -/
def Op.isUpd : Op → Bool
  | .opUpd _ _ _ _ _ _ => true
  | _ => false

/-- Empty users and rewards; business_totals seeded from the businesses
    master (schema.sql lines 54-56). -/
def GState.init : GState :=
  ⟨[], [],
   [⟨"DAPP", 0, 0⟩, ⟨"TOTO_VAULT", 0, 0⟩, ⟨"CIFCI_STABLE", 0, 0⟩,
    ⟨"TYPOGRAM", 0, 0⟩, ⟨"APPLE", 0, 0⟩, ⟨"BITCOIN", 0, 0⟩]⟩

def applyAll (ops : List Op) (db : GState) : GState :=
  ops.foldl applyOp db

/-- The referredBy link of a stored user, none when the user is missing
    or unreferred. -/
def refBy (db : GState) (uid : String) : Option String :=
  (findUser db uid).bind User.referred_by

/-- Non-negative balance and non-negative owned quantities. -/
def GoodUser (u : User) : Prop :=
  0 ≤ u.coins ∧ ∀ p ∈ u.businesses, 0 ≤ p.2

def Inv (db : GState) : Prop :=
  ∀ u ∈ db.users, GoodUser u

/-- The rows carried by a reward_referrer outcome. -/
def rrRows : RRes → List RewardRow
  | .fkViolation => []
  | .rows rs => rs

-- Concrete states used by the closed scenario theorems below.

def userA : User := ⟨"A", "a", 100, [], 1, 0, 0, none, false⟩

def userB : User := ⟨"B", "Bob", 100, [], 1, 0, 0, none, false⟩

def userC : User := ⟨"C", "c", 1000, [], 1, 0, 0, none, false⟩

def userR : User := ⟨"A", "a", 100, [], 1, 0, 0, some "R", false⟩

def dbA : GState := ⟨[userA], [], []⟩

def dbB : GState := ⟨[userB], [], []⟩

def dbAB : GState := ⟨[userA, userB], [], []⟩

def dbC : GState := ⟨[userC], [], GState.init.totals⟩

def dbR : GState := ⟨[userR], [], []⟩

def opsGood : List Op := [Op.opUser "A" none none, Op.opMine "A" 60000 2]

def opsNeg : List Op :=
  [Op.opUser "A" none none, Op.opUpd "A" (some (-5)) none none none none]

def userAmined : User := ⟨"A", "user_A", 102, [], 1, 60000, 0, none, false⟩

-- Helper lemmas about the store primitives.

theorem findU_id {l : List User} {uid : String} {w : User}
    (h : findU l uid = some w) : w.id = uid := by
  induction l with
  | nil => simp [findU] at h
  | cons x xs ih =>
    by_cases hx : x.id = uid
    · simp [findU, hx] at h
      subst h
      exact hx
    · simp [findU, hx] at h
      exact ih h

theorem mem_of_findU {l : List User} {uid : String} {w : User}
    (h : findU l uid = some w) : w ∈ l := by
  induction l with
  | nil => simp [findU] at h
  | cons x xs ih =>
    by_cases hx : x.id = uid
    · simp [findU, hx] at h
      subst h
      exact List.mem_cons_self x xs
    · simp [findU, hx] at h
      exact List.mem_cons_of_mem x (ih h)

theorem findU_append_some {l : List User} {uid : String} {w : User}
    (u : User) (h : findU l uid = some w) : findU (l ++ [u]) uid = some w := by
  induction l with
  | nil => simp [findU] at h
  | cons x xs ih =>
    by_cases hx : x.id = uid
    · simp [findU, hx] at h ⊢
      exact h
    · simp [findU, hx] at h ⊢
      exact ih h

theorem findU_map_pres {l : List User} {uid : String} {g : User → User}
    (hg : ∀ w, (g w).id = w.id) :
    findU (l.map g) uid = (findU l uid).map g := by
  induction l with
  | nil => rfl
  | cons x xs ih =>
    simp only [List.map_cons, findU]
    rw [hg x]
    by_cases hx : x.id = uid
    · simp [hx]
    · simp [hx, ih]

theorem findUser_updUser {db : GState} {uid0 uid : String} {f : User → User}
    (hf : ∀ w, (f w).id = w.id) :
    findUser (updUser db uid0 f) uid =
      (findUser db uid).map (fun w => if w.id = uid0 then f w else w) := by
  unfold findUser updUser
  exact findU_map_pres (fun w => by by_cases hw : w.id = uid0 <;> simp [hw, hf w])

theorem findUser_updUser_self {db : GState} {uid : String} {f : User → User}
    {w : User} (hf : ∀ v, (f v).id = v.id) (h : findUser db uid = some w) :
    findUser (updUser db uid f) uid = some (f w) := by
  rw [findUser_updUser hf, h]
  simp [findU_id h]

theorem findUser_updUser_ne {db : GState} {uid0 uid : String} {f : User → User}
    (hf : ∀ v, (f v).id = v.id) (hne : uid ≠ uid0) :
    findUser (updUser db uid0 f) uid = findUser db uid := by
  rw [findUser_updUser hf]
  cases h : findUser db uid with
  | none => rfl
  | some w =>
    have : w.id = uid := findU_id h
    simp [this, hne]

theorem findUser_insert_some {db : GState} {uid : String} {w : User} (u : User)
    (h : findUser db uid = some w) :
    findUser (insertUser db u) uid = some w :=
  findU_append_some u h

theorem findUser_totals (db : GState) (u : User) (uid : String) :
    findUser (update_business_totals_row db u) uid = findUser db uid := rfl

theorem users_totals (db : GState) (u : User) :
    (update_business_totals_row db u).users = db.users := rfl

theorem rewards_updUser (db : GState) (uid : String) (f : User → User) :
    (updUser db uid f).rewards = db.rewards := rfl

theorem rewards_insert (db : GState) (u : User) :
    (insertUser db u).rewards = db.rewards := rfl

theorem rewards_totals (db : GState) (u : User) :
    (update_business_totals_row db u).rewards = db.rewards := rfl

theorem lookupB_mem {bs : List (String × Int)} {k : String} {v : Int}
    (h : lookupB bs k = some v) : (k, v) ∈ bs := by
  induction bs with
  | nil => simp [lookupB] at h
  | cons p rest ih =>
    by_cases hp : p.1 = k
    · simp [lookupB, hp] at h
      have : (k, v) = p := by
        cases p
        simp_all
      rw [this]
      exact List.mem_cons_self p rest
    · simp [lookupB, hp] at h
      exact List.mem_cons_of_mem p (ih h)

theorem mem_jsonb_set {bs : List (String × Int)} {k : String} {v : Int}
    {q : String × Int} (h : q ∈ jsonb_set bs k v) : q ∈ bs ∨ q = (k, v) := by
  unfold jsonb_set at h
  by_cases hk : (lookupB bs k).isSome
  · simp only [hk, if_true] at h
    obtain ⟨p, hp, hq⟩ := List.mem_map.mp h
    by_cases hpk : p.1 = k
    · simp [hpk] at hq
      right
      exact hq.symm
    · simp [hpk] at hq
      left
      rw [← hq]
      exact hp
  · simp only [hk, if_false] at h
    rcases List.mem_append.mp h with h1 | h1
    · exact Or.inl h1
    · simp at h1
      exact Or.inr h1

-- Passive income: the source fold equals the spec-side sum.

theorem rate_nonneg (id : String) : 0 ≤ perUnitIncomeRate id := by
  unfold perUnitIncomeRate
  cases hfind : BUSINESSES.find? (fun x => x.id = id) with
  | none => simp
  | some b =>
    have hb : b ∈ BUSINESSES := List.mem_of_find?_eq_some hfind
    have hall : ∀ x ∈ BUSINESSES, 0 ≤ x.income := by decide
    simpa using hall b hb

theorem calculatePassiveIncome_eq_spec (bs : List (String × Int)) :
    calculatePassiveIncome bs = income_spec bs := by
  have aux : ∀ (l : List (String × Int)) (a : Int),
      l.foldl
        (fun total p =>
          match BUSINESSES.find? (fun x => x.id = p.1) with
          | some b => total + b.income * p.2
          | none => total)
        a = a + income_spec l := by
    intro l
    induction l with
    | nil => intro a; simp [income_spec]
    | cons p rest ih =>
      intro a
      simp only [List.foldl_cons]
      cases hfind : BUSINESSES.find? (fun x => x.id = p.1) with
      | some b =>
        rw [ih]
        simp [income_spec, perUnitIncomeRate, hfind]
        ring
      | none =>
        rw [ih]
        simp [income_spec, perUnitIncomeRate, hfind]
  simpa [calculatePassiveIncome, income_spec] using aux bs 0

theorem passive_nonneg {bs : List (String × Int)}
    (h : ∀ p ∈ bs, 0 ≤ p.2) : 0 ≤ calculatePassiveIncome bs := by
  rw [calculatePassiveIncome_eq_spec]
  unfold income_spec
  apply List.sum_nonneg
  intro x hx
  obtain ⟨p, hp, rfl⟩ := List.mem_map.mp hx
  exact mul_nonneg (h p hp) (rate_nonneg p.1)

-- Invariant preservation for each store primitive and operation.

theorem inv_updUser {db : GState} {uid : String} {f : User → User}
    (hf : ∀ w, GoodUser w → GoodUser (f w)) (h : Inv db) :
    Inv (updUser db uid f) := by
  intro u hu
  obtain ⟨v, hv, rfl⟩ := List.mem_map.mp hu
  by_cases hid : v.id = uid
  · simp only [hid, if_true]
    exact hf v (h v hv)
  · simp only [hid, if_false]
    exact h v hv

theorem inv_insert {db : GState} {u : User} (h : Inv db) (hu : GoodUser u) :
    Inv (insertUser db u) := by
  intro v hv
  rcases List.mem_append.mp hv with h1 | h1
  · exact h v h1
  · simp at h1
    rw [h1]
    exact hu

theorem inv_totals {db : GState} (u : User) (h : Inv db) :
    Inv (update_business_totals_row db u) := h

theorem inv_bonus {db : GState} (rb : Option String) (h : Inv db) :
    Inv (applyReferralBonus db rb).2 := by
  unfold applyReferralBonus
  cases rb with
  | none => exact h
  | some rid =>
    by_cases hr : rid = ""
    · simp [hr]
      exact h
    · simp only [hr, if_false]
      cases hfind : findUser db rid with
      | none => exact h
      | some u =>
        refine inv_updUser (fun w hw => ?_) h
        refine ⟨show (0 : Int) ≤ w.coins + 100 from ?_, hw.2⟩
        have h1 := hw.1
        omega

theorem inv_user (db : GState) (id : String) (un rb : Option String)
    (h : Inv db) : Inv (api_user db id un rb).2 := by
  unfold api_user
  by_cases hid : id = ""
  · simp [hid]
    exact h
  · simp only [hid, if_false]
    cases hfind : findUser db id with
    | some u => exact h
    | none =>
      apply inv_bonus
      apply inv_totals
      apply inv_insert h
      exact ⟨by norm_num, by simp⟩

theorem inv_mine (db : GState) (id : String) (now e : Int) (he : 0 ≤ e)
    (h : Inv db) : Inv (api_mine db id now e).2 := by
  unfold api_mine
  by_cases hid : id = ""
  · simp [hid]
    exact h
  · simp only [hid, if_false]
    cases hfind : findUser db id with
    | none => exact h
    | some u =>
      by_cases hcd : now - u.last_mine < MINE_COOLDOWN_MS
      · simp [hcd]
        exact h
      · simp only [hcd, if_false]
        have hu : GoodUser u := h u (mem_of_findU hfind)
        have hp : 0 ≤ calculatePassiveIncome u.businesses :=
          passive_nonneg hu.2
        refine inv_updUser (fun w hw => ?_) h
        refine ⟨show (0 : Int) ≤ u.coins + e + calculatePassiveIncome u.businesses
          from ?_, hw.2⟩
        have h1 := hu.1
        omega

theorem inv_purchase (db : GState) (uid b : String) (q : Int) (h : Inv db) :
    Inv (purchase_business db uid b q).2 := by
  unfold purchase_business
  by_cases hq : q ≤ 0
  · simp [hq]
    exact h
  · simp only [hq, if_false]
    cases hfind : findUser db uid with
    | none => exact h
    | some u =>
      by_cases hc : q * 1000 ≤ u.coins
      · simp only [hc, if_true]
        have hu : GoodUser u := h u (mem_of_findU hfind)
        have hcur : 0 ≤ (lookupB u.businesses b).getD 0 := by
          cases hl : lookupB u.businesses b with
          | none => simp
          | some x =>
            simp only [Option.getD_some]
            exact hu.2 (b, x) (lookupB_mem hl)
        have hinv1 : Inv (updUser db uid (fun v =>
            if q * 1000 ≤ v.coins then
              { v with coins := v.coins - q * 1000,
                       businesses := jsonb_set v.businesses b
                         ((lookupB u.businesses b).getD 0 + q) }
            else v)) := by
          refine inv_updUser (fun w hw => ?_) h
          by_cases hcw : q * 1000 ≤ w.coins
          · simp only [hcw, if_true]
            refine ⟨show (0 : Int) ≤ w.coins - q * 1000 from by omega, ?_⟩
            intro p hp
            rcases mem_jsonb_set hp with h1 | h1
            · exact hw.2 p h1
            · rw [h1]
              show (0 : Int) ≤ (lookupB u.businesses b).getD 0 + q
              have h2 := hcur
              omega
          · simp only [hcw, if_false]
            exact hw
        cases hfind1 : findUser (updUser db uid _) uid with
        | some v1 => exact inv_totals v1 hinv1
        | none => exact hinv1
      · simp [hc]
        exact h

theorem inv_reward (db : GState) (a b : String) (k : Int) (hk : 0 ≤ k)
    (h : Inv db) : Inv (reward_referrer db a b k).2 := by
  unfold reward_referrer
  by_cases hmem : (a, b) ∈ db.rewards
  · simp [hmem]
    exact h
  · simp only [hmem, if_false]
    by_cases hfk : ((findUser db a).isNone || (findUser db b).isNone) = true
    · simp [hfk]
      exact h
    · simp only [hfk, if_false]
      cases hfind : findUser { db with rewards := (a, b) :: db.rewards } a with
      | some u =>
        refine inv_updUser (fun w hw => ?_) ?_
        · refine ⟨show (0 : Int) ≤ w.coins + k from ?_, hw.2⟩
          have h1 := hw.1
          omega
        · exact h
      | none => exact h

theorem inv_manual (db : GState) (a b n : String) (h : Inv db) :
    Inv (manual_refer_by_id db a b n).2 := by
  unfold manual_refer_by_id
  by_cases hex : (findUser db b).isSome
  · simp [hex]
    exact h
  · simp only [hex, if_false]
    by_cases hab : a = b
    · simp [hab]
      exact h
    · simp only [hab, if_false]
      refine inv_updUser (fun w hw => ?_) ?_
      · refine ⟨show (0 : Int) ≤ w.coins + 100 from ?_, hw.2⟩
        have h1 := hw.1
        omega
      · apply inv_totals
        exact inv_insert h ⟨by norm_num, by simp⟩

theorem inv_applyOp {db : GState} {op : Op} (hv : op.valid = true)
    (hup : op.isUpd = false) (h : Inv db) : Inv (applyOp db op) := by
  cases op with
  | opUser id un rb => exact inv_user db id un rb h
  | opUpd id c bz lm lv sb => simp [Op.isUpd] at hup
  | opMine id now e =>
    have he : 0 ≤ e := by
      simp [Op.valid] at hv
      rcases hv with h2 | h3 <;> omega
    exact inv_mine db id now e he h
  | opPurchase uid b q => exact inv_purchase db uid b q h
  | opReward a b => exact inv_reward db a b 100 (by norm_num) h
  | opManualRefer a b n => exact inv_manual db a b n h

-- Preservation of the referredBy link by each operation.

theorem refBy_updUser {db : GState} {uid0 uid : String} {f : User → User}
    (hid : ∀ w, (f w).id = w.id)
    (hrb : ∀ w, (f w).referred_by = w.referred_by) :
    refBy (updUser db uid0 f) uid = refBy db uid := by
  unfold refBy
  rw [findUser_updUser hid]
  cases h : findUser db uid with
  | none => rfl
  | some w => by_cases hw : w.id = uid0 <;> simp [hw, hrb w]

theorem refBy_insert_some {db : GState} {uid r : String} (u : User)
    (h : refBy db uid = some r) : refBy (insertUser db u) uid = some r := by
  unfold refBy at h ⊢
  cases hf : findUser db uid with
  | none => simp [hf] at h
  | some w =>
    rw [findUser_insert_some u hf]
    simpa [hf] using h

theorem refBy_totals (db : GState) (u : User) (uid : String) :
    refBy (update_business_totals_row db u) uid = refBy db uid := rfl

theorem refBy_bonus (db : GState) (rb : Option String) (uid : String) :
    refBy (applyReferralBonus db rb).2 uid = refBy db uid := by
  unfold applyReferralBonus
  cases rb with
  | none => rfl
  | some rid =>
    by_cases hr : rid = ""
    · simp [hr]
    · simp only [hr, if_false]
      cases hfind : findUser db rid with
      | none => rfl
      | some u => exact refBy_updUser (fun w => rfl) (fun w => rfl)

theorem refBy_purchase (db : GState) (uid0 b : String) (q : Int)
    (uid : String) :
    refBy (purchase_business db uid0 b q).2 uid = refBy db uid := by
  unfold purchase_business
  by_cases hq : q ≤ 0
  · simp [hq]
  · simp only [hq, if_false]
    cases hfind : findUser db uid0 with
    | none => rfl
    | some u =>
      by_cases hc : q * 1000 ≤ u.coins
      · simp only [hc, if_true]
        have hbase : refBy (updUser db uid0 (fun v =>
            if q * 1000 ≤ v.coins then
              { v with coins := v.coins - q * 1000,
                       businesses := jsonb_set v.businesses b
                         ((lookupB u.businesses b).getD 0 + q) }
            else v)) uid = refBy db uid := by
          refine refBy_updUser (fun w => ?_) (fun w => ?_) <;>
            by_cases hcw : q * 1000 ≤ w.coins <;> simp [hcw]
        cases hfind1 : findUser (updUser db uid0 _) uid0 with
        | some v1 =>
          simp only [hfind1]
          rw [refBy_totals]
          exact hbase
        | none =>
          simp only [hfind1]
          exact hbase
      · simp [hc]

theorem refBy_mine (db : GState) (id : String) (now e : Int) (uid : String) :
    refBy (api_mine db id now e).2 uid = refBy db uid := by
  unfold api_mine
  by_cases hid : id = ""
  · simp [hid]
  · simp only [hid, if_false]
    cases hfind : findUser db id with
    | none => rfl
    | some u =>
      by_cases hcd : now - u.last_mine < MINE_COOLDOWN_MS
      · simp [hcd]
      · simp only [hcd, if_false]
        exact refBy_updUser (fun w => rfl) (fun w => rfl)

theorem refBy_upd (db : GState) (id : String) (c : Option Int)
    (bz : Option (List (String × Int))) (lm lv : Option Int)
    (sb : Option Bool) (uid : String) :
    refBy (api_user_update db id c bz lm lv sb).2 uid = refBy db uid := by
  have hbase : refBy (updUser db id (fun v =>
      { v with coins := c.getD v.coins,
               businesses := bz.getD v.businesses,
               last_mine := lm.getD v.last_mine,
               level := lv.getD v.level,
               subscribed := sb.getD v.subscribed })) uid = refBy db uid :=
    refBy_updUser (fun w => rfl) (fun w => rfl)
  simp only [api_user_update]
  split
  · rfl
  split
  · rfl
  show refBy (if bz.isSome then _ else _) uid = refBy db uid
  split
  · split
    · rw [refBy_totals]
      exact hbase
    · exact hbase
  · exact hbase

theorem refBy_reward (db : GState) (a b : String) (k : Int) (uid : String) :
    refBy (reward_referrer db a b k).2 uid = refBy db uid := by
  unfold reward_referrer
  by_cases hmem : (a, b) ∈ db.rewards
  · simp [hmem]
  · simp only [hmem, if_false]
    by_cases hfk : ((findUser db a).isNone || (findUser db b).isNone) = true
    · simp [hfk]
    · simp only [hfk, if_false]
      cases hfind : findUser { db with rewards := (a, b) :: db.rewards } a with
      | some u =>
        simp only [hfind]
        exact refBy_updUser (fun w => rfl) (fun w => rfl)
      | none =>
        simp only [hfind]
        rfl

theorem refBy_user_some {db : GState} {uid r : String} (id : String)
    (un rb : Option String) (h : refBy db uid = some r) :
    refBy (api_user db id un rb).2 uid = some r := by
  unfold api_user
  by_cases hid : id = ""
  · simpa [hid] using h
  · simp only [hid, if_false]
    cases hfind : findUser db id with
    | some u => exact h
    | none =>
      simp only
      rw [refBy_bonus, refBy_totals]
      exact refBy_insert_some _ h

theorem refBy_manual_some {db : GState} {uid r : String} (a b n : String)
    (h : refBy db uid = some r) :
    refBy (manual_refer_by_id db a b n).2 uid = some r := by
  simp only [manual_refer_by_id]
  split
  · exact h
  split
  · exact h
  refine (refBy_updUser (fun w => ?_) (fun w => ?_)).trans
    (refBy_insert_some _ h) <;> rfl

theorem refBy_applyOp {db : GState} {uid r : String} (op : Op)
    (h : refBy db uid = some r) : refBy (applyOp db op) uid = some r := by
  cases op with
  | opUser id un rb => exact refBy_user_some id un rb h
  | opUpd id c bz lm lv sb => rw [applyOp, refBy_upd]; exact h
  | opMine id now e => rw [applyOp, refBy_mine]; exact h
  | opPurchase uid0 b q => rw [applyOp, refBy_purchase]; exact h
  | opReward a b => rw [applyOp, refBy_reward]; exact h
  | opManualRefer a b n => exact refBy_manual_some a b n h

-- Referral records persist across every operation.

theorem rewards_bonus (db : GState) (rb : Option String) :
    (applyReferralBonus db rb).2.rewards = db.rewards := by
  unfold applyReferralBonus
  cases rb with
  | none => rfl
  | some rid =>
    by_cases hr : rid = ""
    · simp [hr]
    · simp only [hr, if_false]
      cases hfind : findUser db rid with
      | none => rfl
      | some u => rfl

theorem rewards_user (db : GState) (id : String) (un rb : Option String) :
    (api_user db id un rb).2.rewards = db.rewards := by
  unfold api_user
  by_cases hid : id = ""
  · simp [hid]
  · simp only [hid, if_false]
    cases hfind : findUser db id with
    | some u => rfl
    | none => simp only; rw [rewards_bonus, rewards_totals, rewards_insert]

theorem rewards_upd (db : GState) (id : String) (c : Option Int)
    (bz : Option (List (String × Int))) (lm lv : Option Int)
    (sb : Option Bool) :
    (api_user_update db id c bz lm lv sb).2.rewards = db.rewards := by
  simp only [api_user_update]
  split
  · rfl
  split
  · rfl
  show (if bz.isSome then _ else _ : GState).rewards = db.rewards
  split
  · split
    · rw [rewards_totals, rewards_updUser]
    · rw [rewards_updUser]
  · rw [rewards_updUser]

theorem rewards_mine (db : GState) (id : String) (now e : Int) :
    (api_mine db id now e).2.rewards = db.rewards := by
  unfold api_mine
  by_cases hid : id = ""
  · simp [hid]
  · simp only [hid, if_false]
    cases hfind : findUser db id with
    | none => rfl
    | some u =>
      by_cases hcd : now - u.last_mine < MINE_COOLDOWN_MS
      · simp [hcd]
      · simp only [hcd, if_false]
        rw [rewards_updUser]

theorem rewards_purchase (db : GState) (uid0 b : String) (q : Int) :
    (purchase_business db uid0 b q).2.rewards = db.rewards := by
  unfold purchase_business
  by_cases hq : q ≤ 0
  · simp [hq]
  · simp only [hq, if_false]
    cases hfind : findUser db uid0 with
    | none => rfl
    | some u =>
      by_cases hc : q * 1000 ≤ u.coins
      · simp only [hc, if_true]
        cases hfind1 : findUser (updUser db uid0 _) uid0 with
        | some v1 => simp only [hfind1]; rw [rewards_totals, rewards_updUser]
        | none => simp only [hfind1]; rw [rewards_updUser]
      · simp [hc]

theorem rewards_manual (db : GState) (a b n : String) :
    (manual_refer_by_id db a b n).2.rewards = db.rewards := by
  unfold manual_refer_by_id
  by_cases hex : (findUser db b).isSome
  · simp [hex]
  · simp only [hex, if_false]
    by_cases hab : a = b
    · simp [hab]
    · simp only [hab, if_false]
      rfl

theorem rewards_reward_mem {db : GState} {pr pd : String} (a b : String)
    (k : Int) (h : (pr, pd) ∈ db.rewards) :
    (pr, pd) ∈ (reward_referrer db a b k).2.rewards := by
  unfold reward_referrer
  by_cases hmem : (a, b) ∈ db.rewards
  · simpa [hmem] using h
  · simp only [hmem, if_false]
    by_cases hfk : ((findUser db a).isNone || (findUser db b).isNone) = true
    · simpa [hfk] using h
    · simp only [hfk, if_false]
      cases hfind : findUser { db with rewards := (a, b) :: db.rewards } a with
      | some u =>
        simp only [hfind, rewards_updUser]
        exact List.mem_cons_of_mem _ h
      | none => simpa [hfind] using h

theorem rewards_applyOp_mem {db : GState} {pr pd : String} (op : Op)
    (h : (pr, pd) ∈ db.rewards) : (pr, pd) ∈ (applyOp db op).rewards := by
  cases op with
  | opUser id un rb => rw [applyOp, rewards_user]; exact h
  | opUpd id c bz lm lv sb => rw [applyOp, rewards_upd]; exact h
  | opMine id now e => rw [applyOp, rewards_mine]; exact h
  | opPurchase uid0 b q => rw [applyOp, rewards_purchase]; exact h
  | opReward a b => exact rewards_reward_mem a b 100 h
  | opManualRefer a b n => rw [applyOp, rewards_manual]; exact h

theorem inv_applyAll (ops : List Op) (db : GState) (h : Inv db)
    (hops : ∀ op ∈ ops, op.valid = true ∧ op.isUpd = false) :
    Inv (applyAll ops db) := by
  induction ops generalizing db with
  | nil => exact h
  | cons op rest ih =>
    have h1 := hops op (List.mem_cons_self op rest)
    exact ih (applyOp db op) (inv_applyOp h1.1 h1.2 h)
      (fun o ho => hops o (List.mem_cons_of_mem op ho))

-- Claim theorems.

/-- C7: every purchase call with a non-positive quantity is rejected with
the invalid_qty outcome before any mutation: the store is returned
unchanged, for every user id and business id. -/
theorem c7_invalid_qty_rejected (db : GState) (uid b : String) (q : Int)
    (hq : q ≤ 0) : purchase_business db uid b q = (invalidQtyJson, db) := by
  simp [purchase_business, hq]

/-- C7 witness: quantity 0 is rejected on the initial store. -/
theorem c7_witness :
    (0 : Int) ≤ 0 ∧
      purchase_business GState.init "u" "DAPP" 0 =
        (invalidQtyJson, GState.init) :=
  ⟨by decide, c7_invalid_qty_rejected GState.init "u" "DAPP" 0 (by decide)⟩

/-- C10: a purchase with a positive quantity for a user id without a user
row yields the insufficient_funds outcome (no distinct user-not-found
outcome) and leaves the store unchanged. -/
theorem c10_missing_user_insufficient (db : GState) (uid b : String)
    (q : Int) (hq : 0 < q) (hu : findUser db uid = none) :
    purchase_business db uid b q = (insufficientFundsJson, db) := by
  have hq2 : ¬ q ≤ 0 := by omega
  simp [purchase_business, hq2, hu]

/-- C10 witness: buying 1 unit as an unknown user on the initial store. -/
theorem c10_witness :
    (0 : Int) < 1 ∧ findUser GState.init "ghost" = none ∧
      purchase_business GState.init "ghost" "DAPP" 1 =
        (insufficientFundsJson, GState.init) :=
  ⟨by decide, by decide,
   c10_missing_user_insufficient GState.init "ghost" "DAPP" 1 (by decide)
     (by decide)⟩

/-- C8: the passive income calculator equals the spec-side sum of
quantity times per-unit income rate over all entries, where an identifier
outside the catalog has rate zero. -/
theorem c8_passive_income_spec :
    ∀ bs : List (String × Int),
      calculatePassiveIncome bs = income_spec bs ∧
      ∀ id : String, (∀ x ∈ BUSINESSES, x.id ≠ id) →
        perUnitIncomeRate id = 0 := by
  intro bs
  refine ⟨calculatePassiveIncome_eq_spec bs, ?_⟩
  intro id hid
  unfold perUnitIncomeRate
  cases hfind : BUSINESSES.find? (fun x => x.id = id) with
  | none => rfl
  | some b =>
    have hb : b ∈ BUSINESSES := List.mem_of_find?_eq_some hfind
    have hpb := List.find?_some hfind
    simp at hpb
    exact absurd hpb (hid b hb)

/-- C8 witness: a map with one known and one unknown id; the unknown id
contributes zero. -/
theorem c8_witness :
    calculatePassiveIncome [("DAPP", 3), ("PIZZA", 7)] =
        income_spec [("DAPP", 3), ("PIZZA", 7)] ∧
      (∀ x ∈ BUSINESSES, x.id ≠ "PIZZA") ∧
      perUnitIncomeRate "PIZZA" = 0 ∧
      calculatePassiveIncome [("DAPP", 3), ("PIZZA", 7)] = 3 :=
  ⟨(c8_passive_income_spec [("DAPP", 3), ("PIZZA", 7)]).1, by decide,
   (c8_passive_income_spec [("DAPP", 3), ("PIZZA", 7)]).2 "PIZZA" (by decide),
   by decide⟩

/-- C2 counterexample: the success payload of purchase_business is
json_build_object of success, business and owned only; it carries no
newBalance key, so the call does not return the new balance. -/
theorem c2_counterexample :
    jlookup (purchase_business dbC "C" "DAPP" 1).1 "newBalance" = none ∧
      (purchase_business dbC "C" "DAPP" 1).1 =
        [("success", .jbool true), ("business", .jstr "DAPP"),
         ("owned", .jint 1)] := by
  decide

/-- C2 (amended): with balance 1000 and 0 units of DAPP at unit cost 1000,
buying 1 unit succeeds returning owned = 1 (the payload has no balance
field), the stored balance becomes 0, and the identical repeated call
returns insufficient_funds leaving the store unchanged. -/
theorem c2_exact_cost_purchase :
    (purchase_business dbC "C" "DAPP" 1).1 = purchaseOkJson "DAPP" 1 ∧
      (findUser (purchase_business dbC "C" "DAPP" 1).2 "C").map User.coins =
        some 0 ∧
      (findUser (purchase_business dbC "C" "DAPP" 1).2 "C").map
        (fun u => lookupB u.businesses "DAPP") = some (some 1) ∧
      purchase_business (purchase_business dbC "C" "DAPP" 1).2 "C" "DAPP" 1 =
        (insufficientFundsJson, (purchase_business dbC "C" "DAPP" 1).2) := by
  decide

/-- C3: a referrer with balance 100 and referral count 0 is rewarded on
the first claim for a fresh pair with referral count 1 and balance 200
(bonus 100); the identical repeated call reports rewarded = false with
the balance still 200. -/
theorem c3_concrete_referral :
    (reward_referrer dbAB "A" "B" 100).1 =
        .rows [⟨some "A", some 1, some 200, true⟩] ∧
      (reward_referrer (reward_referrer dbAB "A" "B" 100).2 "A" "B" 100).1 =
        .rows [⟨some "A", some 1, some 200, false⟩] ∧
      (findUser
        (reward_referrer (reward_referrer dbAB "A" "B" 100).2 "A" "B" 100).2
        "A").map User.coins = some 200 := by
  decide

/-- C4 counterexample: claim_referral(x, x, name) for an existing x does
not produce the self-referral outcome: manual_refer_by_id returns the
already_user json instead. -/
theorem c4_counterexample :
    (manual_refer_by_id dbA "A" "A" "n").1 = .mjson alreadyUserJson ∧
      (manual_refer_by_id dbA "A" "A" "n").1 ≠ .checkViolation := by
  decide

/-- C4 (amended): manual_refer_by_id(x, x, name) never mutates the store;
when x already has a user row it returns the already_user error, and when
x has no row it aborts with the no_self_referral check-constraint
violation. -/
theorem c4_self_refer_no_mutation (db : GState) (x n : String) :
    (manual_refer_by_id db x x n).2 = db ∧
      ((findUser db x).isSome = true →
        (manual_refer_by_id db x x n).1 = .mjson alreadyUserJson) ∧
      ((findUser db x).isSome = false →
        (manual_refer_by_id db x x n).1 = .checkViolation) := by
  by_cases hex : (findUser db x).isSome = true
  · refine ⟨by simp [manual_refer_by_id, hex], fun _ => ?_, fun hc => ?_⟩
    · simp [manual_refer_by_id, hex]
    · rw [hex] at hc
      cases hc
  · have hex2 : (findUser db x).isSome = false := by
      simp only [Bool.not_eq_true] at hex
      exact hex
    refine ⟨by simp [manual_refer_by_id, hex2], fun hc => ?_, fun _ => ?_⟩
    · rw [hex2] at hc
      cases hc
    · simp [manual_refer_by_id, hex2]

/-- C4 witness: for the existing id A the call is a no-op returning
already_user. -/
theorem c4_witness :
    (findUser dbA "A").isSome = true ∧
      (manual_refer_by_id dbA "A" "A" "n").2 = dbA ∧
      (manual_refer_by_id dbA "A" "A" "n").1 = .mjson alreadyUserJson :=
  ⟨by decide, (c4_self_refer_no_mutation dbA "A" "n").1,
   (c4_self_refer_no_mutation dbA "A" "n").2.1 (by decide)⟩

/-- C9 counterexample: with referrer X missing, reward_referrer aborts
with a foreign-key violation instead of returning rewarded = false; the
store is unchanged by the rollback. -/
theorem c9_counterexample :
    (reward_referrer dbB "X" "B" 100).1 = .fkViolation ∧
      (reward_referrer dbB "X" "B" 100).2 = dbB := by
  decide

/-- C9 (amended): when the referrer id has no user row (and the pair is
fresh) the insert into referral_rewards fails its foreign key and the
whole call aborts with the store unchanged; the branch that deletes a
provisionally inserted row and returns a null referrer id is unreachable:
no returned row ever has referrer_id = none. -/
theorem c9_missing_referrer_fk (db : GState) (pr pd : String) (k : Int) :
    (findUser db pr = none → (pr, pd) ∉ db.rewards →
      reward_referrer db pr pd k = (.fkViolation, db)) ∧
    (∀ row ∈ rrRows (reward_referrer db pr pd k).1,
      row.referrer_id ≠ none) := by
  constructor
  · intro hpr hmem
    simp [reward_referrer, hmem, hpr]
  · intro row hrow
    by_cases hmem : (pr, pd) ∈ db.rewards
    · cases hfind : findUser db pr with
      | some u =>
        simp [reward_referrer, hmem, hfind, rrRows] at hrow
        rw [hrow]
        simp
      | none => simp [reward_referrer, hmem, hfind, rrRows] at hrow
    · cases hfind : findUser db pr with
      | none => simp [reward_referrer, hmem, hfind, rrRows] at hrow
      | some u =>
        cases hfind2 : findUser db pd with
        | none =>
          simp [reward_referrer, hmem, hfind, hfind2, rrRows] at hrow
        | some v =>
          have hfind1 : findUser { db with rewards := (pr, pd) :: db.rewards }
              pr = some u := hfind
          simp [reward_referrer, hmem, hfind, hfind2, hfind1, rrRows] at hrow
          rw [hrow]
          simp

/-- C9 witness: the amended behavior at the concrete store holding only
the referred user B. -/
theorem c9_witness :
    (findUser dbB "X" = none ∧ ("X", "B") ∉ dbB.rewards) ∧
      reward_referrer dbB "X" "B" 100 = (.fkViolation, dbB) :=
  ⟨⟨by decide, by decide⟩,
   (c9_missing_referrer_fk dbB "X" "B" 100).1 (by decide) (by decide)⟩

/-- C1 counterexample: with the referrer A existing, A different from B,
but B having no user row, the first reward_referrer call for (A, B) aborts
with a foreign-key violation instead of returning Rewarded. -/
theorem c1_counterexample :
    "A" ≠ "B" ∧ (findUser dbA "A").isSome = true ∧
      reward_referrer dbA "A" "B" 100 = (.fkViolation, dbA) := by
  decide

/-- C1 (amended): for a pair with referrer distinct from referred and both
ids resolving to user rows, the first reward_referrer call returns the
rewarded = true row with the incremented counters, records the pair, and
credits the referrer; any call for an already-recorded pair returns the
rewarded = false row and leaves the store completely unchanged; recorded
pairs persist across every operation. -/
theorem c1_first_reward_then_already (db : GState) (pr pd : String)
    (u : User) (_hne : pr ≠ pd) (hpr : findUser db pr = some u)
    (hpd : (findUser db pd).isSome = true) :
    (((pr, pd) ∉ db.rewards →
        (reward_referrer db pr pd 100).1 =
          .rows [⟨some pr, some (u.referrals_count + 1),
                  some (u.coins + 100), true⟩] ∧
        (pr, pd) ∈ (reward_referrer db pr pd 100).2.rewards ∧
        findUser (reward_referrer db pr pd 100).2 pr =
          some { u with referrals_count := u.referrals_count + 1,
                        coins := u.coins + 100 }) ∧
      ((pr, pd) ∈ db.rewards →
        reward_referrer db pr pd 100 =
          (.rows [⟨some pr, some u.referrals_count, some u.coins, false⟩],
           db))) ∧
    (∀ op : Op, (pr, pd) ∈ db.rewards →
      (pr, pd) ∈ (applyOp db op).rewards) := by
  have hid : u.id = pr := findU_id hpr
  obtain ⟨v, hv⟩ := Option.isSome_iff_exists.mp hpd
  refine ⟨⟨?_, ?_⟩, fun op h => rewards_applyOp_mem op h⟩
  · intro hmem
    have hfind1 : findUser { db with rewards := (pr, pd) :: db.rewards } pr =
        some u := hpr
    refine ⟨?_, ?_, ?_⟩
    · simp [reward_referrer, hmem, hpr, hv, hfind1, hid]
    · simp [reward_referrer, hmem, hpr, hv, hfind1]
      exact List.mem_cons_self _ _
    · simp only [reward_referrer, hmem, if_false]
      simp only [hpr, hv, Option.isNone_some, Bool.or_self, Bool.false_eq_true,
        if_false, hfind1]
      exact findUser_updUser_self (fun w => rfl) hfind1
  · intro hmem
    simp [reward_referrer, hmem, hpr, hid]

/-- C1 witness: the amended behavior at the concrete store holding users
A and B with no recorded pair. -/
theorem c1_witness :
    ("A" ≠ "B" ∧ findUser dbAB "A" = some userA ∧
        (findUser dbAB "B").isSome = true ∧ ("A", "B") ∉ dbAB.rewards) ∧
      (reward_referrer dbAB "A" "B" 100).1 =
        .rows [⟨some "A", some (userA.referrals_count + 1),
                some (userA.coins + 100), true⟩] ∧
      ("A", "B") ∈ (reward_referrer dbAB "A" "B" 100).2.rewards :=
  ⟨⟨by decide, by decide, by decide, by decide⟩,
   ((c1_first_reward_then_already dbAB "A" "B" userA (by decide) (by decide)
       (by decide)).1.1 (by decide)).1,
   ((c1_first_reward_then_already dbAB "A" "B" userA (by decide) (by decide)
       (by decide)).1.1 (by decide)).2.1⟩

/-- C6: once a user's referredBy is non-null no operation changes it, and
the create-or-fetch endpoint called with an existing (non-empty) id
returns the stored record and the store unchanged. -/
theorem c6_referred_by_immutable (op : Op) (db : GState) (uid r : String) :
    (refBy db uid = some r → refBy (applyOp db op) uid = some r) ∧
    (∀ (un rb : Option String) (u : User), uid ≠ "" →
      findUser db uid = some u →
      api_user db uid un rb = (.ok (mapRowToUser u), db)) := by
  refine ⟨fun h => refBy_applyOp op h, ?_⟩
  intro un rb u hne hfind
  simp [api_user, hne, hfind]

/-- C6 witness: an update operation leaves the referredBy link of A
intact, and re-fetching A returns the stored record unchanged. -/
theorem c6_witness :
    (refBy dbR "A" = some "R" ∧ findUser dbR "A" = some userR ∧
        "A" ≠ "") ∧
      refBy (applyOp dbR (Op.opUpd "A" (some 0) none none none none)) "A" =
        some "R" ∧
      api_user dbR "A" none none = (.ok (mapRowToUser userR), dbR) :=
  ⟨⟨by decide, by decide, by decide⟩,
   (c6_referred_by_immutable (Op.opUpd "A" (some 0) none none none none)
       dbR "A" "R").1 (by decide),
   (c6_referred_by_immutable (Op.opUpd "A" (some 0) none none none none)
       dbR "A" "R").2 none none userR (by decide) (by decide)⟩

/-- C5 counterexample: the /api/user/update endpoint accepts any
client-supplied coins value, so a reachable state holds a negative
balance. -/
theorem c5_counterexample :
    (findUser (applyAll opsNeg GState.init) "A").map User.coins =
        some (-5) ∧
      (-5 : Int) < 0 := by
  decide

/-- C5 (amended): in every state reachable from the initial store by user
creation, mining, purchase, referral reward and manual referral (that is,
excluding the unvalidated /api/user/update endpoint), every user balance
is non-negative. -/
theorem c5_balance_nonneg (ops : List Op)
    (hops : ∀ op ∈ ops, op.valid = true ∧ op.isUpd = false) :
    ∀ u ∈ (applyAll ops GState.init).users, 0 ≤ u.coins := by
  have hinit : Inv GState.init := by
    intro u hu
    simp [GState.init] at hu
  intro u hu
  exact (inv_applyAll ops GState.init hinit hops u hu).1

/-- C5 witness: after creating user A and one mining step the stored
balance is non-negative. -/
theorem c5_witness :
    (∀ op ∈ opsGood, op.valid = true ∧ op.isUpd = false) ∧
      userAmined ∈ (applyAll opsGood GState.init).users ∧
      0 ≤ userAmined.coins :=
  ⟨by decide, by decide,
   c5_balance_nonneg opsGood (by decide) userAmined (by decide)⟩

end CeoToto
